import Mathlib

/-!
Verification of the comparison and test-orchestration engine of an MCP
conformance-testing action.

The development shallowly embeds the TypeScript sources:
  * `src/diff.ts`   — the structural JSON differ (`findJsonDifferences`,
    `compareArrays`, `getItemKey`, `formatValue`, `generateJsonDiff`,
    `compareProbeResults`);
  * `src/runner.ts` — the per-configuration runner (`runSingleConfigTest`),
    the batch runner (`runAllTests`), `compareResults`, `generateSimpleDiff`;
  * `src/git.ts`    — compare-ref resolution (`determineCompareRef` and its
    git helpers).

JavaScript runtime values that the differ manipulates are modelled by the
inductive type `JsVal`.  JS numbers are modelled by `Int` (the differ only
tests numbers for equality and prints them; no float arithmetic occurs).
External effects (child processes, git commands, probes, the filesystem)
are modelled as explicit environment records, and the runner additionally
returns a trace of the external actions it performed, in order.
-/

namespace MCPConf

/-- JavaScript values as manipulated by the differ: `null`, `undefined`,
booleans, numbers (restricted to integers, see the file comment), strings,
arrays and plain objects (fields in insertion order). -/
inductive JsVal where
  | null
  | undef
  | bool (b : Bool)
  | num (n : Int)
  | str (s : String)
  | arr (xs : List JsVal)
  | obj (fields : List (String × JsVal))

/-- Runtime `typeof` of a modelled JS value.  Note that `typeof null`,
`typeof` of an array and `typeof` of a plain object are all `"object"`. -/
def typeofJs : JsVal → String
  | .null => "object"
  | .undef => "undefined"
  | .bool _ => "boolean"
  | .num _ => "number"
  | .str _ => "string"
  | .arr _ => "object"
  | .obj _ => "object"

/-- Test for `v === null || v === undefined`. -/
def isNullOrUndef : JsVal → Bool
  | .null => true
  | .undef => true
  | _ => false

/-- Strict equality `===` of two JS scalars of the same `typeof`
(booleans, numbers or strings).  The differ only reaches its scalar branch
when both sides are non-null, non-array, non-object values of equal
`typeof`, so no recursion into containers is needed. -/
def scalarEq : JsVal → JsVal → Bool
  | .bool a, .bool b => a == b
  | .num a, .num b => a == b
  | .str a, .str b => a == b
  | _, _ => false

/-- Hexadecimal digit, used by the JSON string escaper. -/
def hexDigit (n : Nat) : Char :=
  if n < 10 then Char.ofNat (48 + n) else Char.ofNat (87 + n)

/-- JSON escaping of one character, as performed by `JSON.stringify`. -/
def encodeJsonChar (c : Char) : String :=
  if c = '"' then "\\\""
  else if c = '\\' then "\\\\"
  else if c = '\n' then "\\n"
  else if c = '\t' then "\\t"
  else if c = '\r' then "\\r"
  else if c = '\x08' then "\\b"
  else if c = '\x0c' then "\\f"
  else if c.toNat < 32 then
    "\\u00" ++ String.singleton (hexDigit (c.toNat / 16)) ++
      String.singleton (hexDigit (c.toNat % 16))
  else String.singleton c

/-- Serialization of a string by `JSON.stringify`: surrounding quotes plus
escaped characters. -/
def encodeJsonString (s : String) : String :=
  "\"" ++ String.join (s.data.map encodeJsonChar) ++ "\""

mutual
/-- Model of `JSON.stringify` on a JS value.  `undefined` at top level
yields no string (`none`); inside arrays it serializes as `null`; fields
holding `undefined` are dropped, exactly as `JSON.stringify` does. -/
def jsonStringify : JsVal → Option String
  | .null => some "null"
  | .undef => none
  | .bool b => some (cond b "true" "false")
  | .num n => some (toString n)
  | .str s => some (encodeJsonString s)
  | .arr xs => some ("[" ++ String.intercalate "," (stringifyArr xs) ++ "]")
  | .obj fs => some ("\x7b" ++ String.intercalate "," (stringifyFields fs) ++ "\x7d")

/-- Serializations of the elements of an array (`undefined` becomes `null`). -/
def stringifyArr : List JsVal → List String
  | [] => []
  | x :: xs => ((jsonStringify x).getD "null") :: stringifyArr xs

/-- Serializations of the fields of an object (fields holding `undefined`
are dropped). -/
def stringifyFields : List (String × JsVal) → List String
  | [] => []
  | (k, v) :: fs =>
      (match jsonStringify v with
       | some s => [encodeJsonString k ++ ":" ++ s]
       | none => []) ++ stringifyFields fs
end

/-- Embedding of `formatValue` (src/diff.ts): display rendering of a leaf
value, truncating long strings at 100 characters and long object/array
serializations at 200 characters. -/
def formatValue (value : JsVal) : String :=
  match value with
  | .null => "null"
  | .undef => "undefined"
  | .str s =>
      if s.length > 100 then encodeJsonString (⟨s.data.take 100⟩ ++ "...")
      else encodeJsonString s
  | .arr _ | .obj _ =>
      let json := (jsonStringify value).getD "undefined"
      if json.length > 200 then (⟨json.data.take 200⟩ : String) ++ "..."
      else json
  | .bool b => cond b "true" "false"
  | .num n => toString n

/-- First-match association lookup, modelling both JS property access
(`obj[key]`, with `none` for an absent property) and `Map.get`. -/
def lookupField {α : Type} : List (String × α) → String → Option α
  | [], _ => none
  | e :: rest, k => if e.1 = k then some e.2 else lookupField rest k

/-- Own enumerable properties of a JS value, in iteration order, as used by
`Object.keys` and property access in the differ's object branch.  An array
exposes its elements under their decimal indices (its non-enumerable
`length` property, which `Object.keys` does not report, is not modelled);
non-container values have no properties. -/
def objFields : JsVal → List (String × JsVal)
  | .obj fs => fs
  | .arr xs => xs.enum.map (fun p => (toString p.1, p.2))
  | _ => []

/-- Property access `v[k]`, yielding `none` when the property is absent. -/
def jsGetKey (v : JsVal) (k : String) : Option JsVal :=
  lookupField (objFields v) k

/-- Deduplication keeping first occurrences, modelling iteration over
`new Set([...])`; `seen` accumulates the keys already produced. -/
def setDedupAux : List String → List String → List String
  | [], _ => []
  | x :: xs, seen =>
      if x ∈ seen then setDedupAux xs seen else x :: setDedupAux xs (x :: seen)

/-- Iteration order of `new Set(l)`: the elements of `l` with duplicates
removed, keeping first occurrences. -/
def setDedup (l : List String) : List String :=
  setDedupAux l []

/-- Insertion into an association list with `Map.set` semantics: an
existing key keeps its position and gets the new value; a fresh key is
appended at the end. -/
def mapSet {α : Type} : List (String × α) → String → α → List (String × α)
  | [], k, v => [(k, v)]
  | e :: rest, k, v =>
      if e.1 = k then (e.1, v) :: rest else e :: mapSet rest k v

/-- Truthiness of an optional JS string: `undefined`/`null` and the empty
string are falsy. -/
def jsTruthy : Option String → Bool
  | none => false
  | some s => s != ""

/-- A string field of an object, or `none` when the field is absent or not
a string (mirrors checks of the form `typeof obj.name === "string"`). -/
def stringField (fs : List (String × JsVal)) (k : String) : Option String :=
  match lookupField fs k with
  | some (.str s) => some s
  | _ => none

/-- Embedding of `getItemKey` (src/diff.ts): the identity key of an array
member.  Non-object members get `"#" ++ index`; object members get their
`name`, `uri`, `uriTemplate` or `method` field — whichever is a string
first — falling back to `"#" ++ index`.  An array member has `typeof`
`"object"` but none of those own properties, so it also falls back. -/
def getItemKey (item : JsVal) (index : Nat) : String :=
  match item with
  | .obj fs =>
      match stringField fs "name" with
      | some s => s
      | none =>
        match stringField fs "uri" with
        | some s => s
        | none =>
          match stringField fs "uriTemplate" with
          | some s => s
          | none =>
            match stringField fs "method" with
            | some s => s
            | none => "#" ++ toString index
  | .arr _ => "#" ++ toString index
  | _ => "#" ++ toString index

/-- The `name` field of an object item, when it is a string: for such
items `getItemKey` returns the name, independently of the item's index. -/
def itemName : JsVal → Option String
  | .obj fs => stringField fs "name"
  | _ => none

/-- The `Map` of items keyed by identity that `compareArrays` builds with
`forEach`/`Map.set`; `i` is the index of the first element of `items`. -/
def buildItemsAux : List JsVal → Nat → List (String × JsVal) → List (String × JsVal)
  | [], _, acc => acc
  | item :: rest, i, acc => buildItemsAux rest (i + 1) (mapSet acc (getItemKey item i) item)

/-- Identity-keyed item map of an array, as built by `compareArrays`: a later
item whose key collides with an earlier one overrides it (`Map.set`). -/
def buildItems (items : List JsVal) : List (String × JsVal) :=
  buildItemsAux items 0 []

/-- Display form `path || "root"` used by the add/remove/type-change
branches of `findJsonDifferences`. -/
def pathOrRoot (path : String) : String :=
  if path = "" then "root" else path

/-- Model of the JS string method `trim()`: strips whitespace from both
ends. -/
def jsTrim (s : String) : String :=
  ⟨((s.data.dropWhile Char.isWhitespace).reverse.dropWhile Char.isWhitespace).reverse⟩

/-- Splitting accumulator for `jsSplit`: `acc` holds the current segment's
characters in reverse. -/
def jsSplitAux (c : Char) : List Char → List Char → List String
  | [], acc => [⟨acc.reverse⟩]
  | ch :: rest, acc =>
      if ch = c then (⟨acc.reverse⟩ : String) :: jsSplitAux c rest []
      else jsSplitAux c rest (ch :: acc)

/-- Model of the JS string method `split(sep)` for the single-character
separators the sources use (`"\n"`): the list of segments between
occurrences of the separator; the empty string splits to `[""]`. -/
def jsSplit (c : Char) (s : String) : List String :=
  jsSplitAux c s.data []

/-- Fuel-indexed embedding of `findJsonDifferences` (src/diff.ts), with the
body of `compareArrays` inlined in the array branch (the source calls
`compareArrays` there; see `compareArrays` below).  The fuel only bounds
the recursion depth; the wrappers instantiate it with more fuel than the
values are deep, so the base case `[]` is never reached from them.
Branches in source order:
absent base / absent target / differing `typeof` / two arrays /
two `"object"`-typed values (including the array-versus-plain-object case,
walked key-wise because both sides have `typeof` `"object"`) / scalars. -/
def findJsonDifferencesF : Nat → JsVal → JsVal → String → List String
  | 0, _, _, _ => []
  | fuel + 1, base, target, path =>
    if isNullOrUndef base then
      if isNullOrUndef target then []
      else ["+ " ++ pathOrRoot path ++ ": " ++ formatValue target]
    else if isNullOrUndef target then
      ["- " ++ pathOrRoot path ++ ": " ++ formatValue base]
    else if typeofJs base ≠ typeofJs target then
      ["- " ++ pathOrRoot path ++ ": " ++ formatValue base,
       "+ " ++ pathOrRoot path ++ ": " ++ formatValue target]
    else
      match base, target with
      | .arr bs, .arr ts =>
          let baseItems := buildItems bs
          let targetItems := buildItems ts
          ((baseItems.filter (fun e => (lookupField targetItems e.1).isNone)).map
            (fun e => "- " ++ path ++ "[" ++ e.1 ++ "]: " ++ formatValue e.2))
          ++ ((targetItems.filter (fun e => (lookupField baseItems e.1).isNone)).map
            (fun e => "+ " ++ path ++ "[" ++ e.1 ++ "]: " ++ formatValue e.2))
          ++ baseItems.flatMap (fun e =>
              match lookupField targetItems e.1 with
              | some tItem => findJsonDifferencesF fuel e.2 tItem (path ++ "[" ++ e.1 ++ "]")
              | none => [])
      | b, t =>
        if typeofJs b = "object" then
          (setDedup ((objFields b).map Prod.fst ++ (objFields t).map Prod.fst)).flatMap
            (fun key =>
              let newPath := if path = "" then key else path ++ "." ++ key
              match jsGetKey b key with
              | none => ["+ " ++ newPath ++ ": " ++ formatValue ((jsGetKey t key).getD .undef)]
              | some v =>
                match jsGetKey t key with
                | none => ["- " ++ newPath ++ ": " ++ formatValue v]
                | some w => findJsonDifferencesF fuel v w newPath)
        else if scalarEq b t then []
        else ["- " ++ path ++ ": " ++ formatValue b, "+ " ++ path ++ ": " ++ formatValue t]

mutual
/-- Fuel bound for the differ: one unit per value node, so it strictly
exceeds the nesting depth of a value. -/
def jsFuel : JsVal → Nat
  | .arr xs => 1 + jsFuelList xs
  | .obj fs => 1 + jsFuelFields fs
  | _ => 1

/-- Sum of `jsFuel` over the elements of an array. -/
def jsFuelList : List JsVal → Nat
  | [] => 0
  | x :: xs => jsFuel x + jsFuelList xs

/-- Sum of `jsFuel` over the field values of an object. -/
def jsFuelFields : List (String × JsVal) → Nat
  | [] => 0
  | (_, v) :: fs => jsFuel v + jsFuelFields fs
end

/-- Embedding of `findJsonDifferences` (src/diff.ts): the recursive
structural differ, instantiated with ample fuel. -/
def findJsonDifferences (base target : JsVal) (path : String) : List String :=
  findJsonDifferencesF (jsFuel base + jsFuel target) base target path

/-- Embedding of `compareArrays` (src/diff.ts).  Applying the differ to two
arrays passes the null and `typeof` checks and enters exactly the array
reconciliation branch, whose inlined body in `findJsonDifferencesF` is the
body of the source's `compareArrays`; conversely the source's
`findJsonDifferences` delegates two arrays to `compareArrays`. -/
def compareArrays (base target : List JsVal) (path : String) : List String :=
  findJsonDifferences (.arr base) (.arr target) path

/-- Embedding of `generateJsonDiff` (src/diff.ts), parameterized by the
runtime primitive `JSON.parse` (modelled as `parse`, returning `none` when
parsing throws).  Two parsed sides get the structural differ with a
header; a parse failure on either side falls back to a trivial whole-value
removed/added rendering (with no `.json` suffix in its header). -/
def generateJsonDiff (parse : String → Option JsVal) (name base target : String) :
    Option String :=
  match parse base, parse target with
  | some baseObj, some targetObj =>
      let differences := findJsonDifferences baseObj targetObj ""
      if differences = [] then none
      else some (String.intercalate "\n"
        (["--- base/" ++ name ++ ".json", "+++ target/" ++ name ++ ".json", ""] ++ differences))
  | _, _ =>
      if base = target then none
      else some ("--- base/" ++ name ++ "\n+++ target/" ++ name ++ "\n- " ++ base ++ "\n+ " ++ target)

/-- Decision of `compareProbeResults` (src/diff.ts) for one endpoint of the
union: the diff text to record for it, if any.  Contents are `Map.get`
results (`none` = endpoint absent); JS truthiness makes the empty string
count as absent in the first two branches. -/
def compareProbeResultsEntry (parse : String → Option JsVal)
    (baseFiles targetFiles : List (String × String)) (endpoint : String) : Option String :=
  let baseContent := lookupField baseFiles endpoint
  let targetContent := lookupField targetFiles endpoint
  if !(jsTruthy targetContent) && jsTruthy baseContent then
    some "Endpoint removed in target (was present in base)"
  else if jsTruthy targetContent && !(jsTruthy baseContent) then
    some "Endpoint added in target (not present in base)"
  else if baseContent ≠ targetContent then
    generateJsonDiff parse endpoint (baseContent.getD "") (targetContent.getD "")
  else none

/-- Embedding of `compareProbeResults` (src/diff.ts).  The probe results
have already been rendered to endpoint-to-content maps by
`probeResultToFiles` (an external collaborator declared in the probe
module); the comparison walks the union of the endpoint sets in first-seen
order (base first) and records one diff entry per differing endpoint. -/
def compareProbeResults (parse : String → Option JsVal)
    (baseFiles targetFiles : List (String × String)) : List (String × String) :=
  (setDedup (baseFiles.map Prod.fst ++ targetFiles.map Prod.fst)).filterMap
    (fun endpoint =>
      (compareProbeResultsEntry parse baseFiles targetFiles endpoint).map
        (fun d => (endpoint, d)))

/-! Runner (src/runner.ts).  External effects are modelled by an
environment record `RunEnv`; the runner returns, alongside its
`Except`-valued outcome (`Except.error e` models a thrown JS error `e`),
the ordered trace of external actions it performed. -/

/-- Embedding of `generateSimpleDiff` (src/runner.ts): a positional
line-by-line diff of two endpoint contents, or `none` when no line
differs. -/
def generateSimpleDiff (name base branch : String) : Option String :=
  let baseLines := jsSplit '\n' base
  let branchLines := jsSplit '\n' branch
  let maxLines := max baseLines.length branchLines.length
  let diffLines := (List.range maxLines).flatMap (fun i =>
    let baseLine := baseLines[i]?
    let branchLine := branchLines[i]?
    if baseLine ≠ branchLine then
      (match baseLine with | some l => ["- " ++ l] | none => []) ++
      (match branchLine with | some l => ["+ " ++ l] | none => [])
    else [])
  if diffLines = [] then none
  else some ("--- base/" ++ name ++ ".json\n+++ branch/" ++ name ++ ".json\n" ++
    String.intercalate "\n" diffLines)

/-- Decision of `compareResults` (src/runner.ts) for one endpoint of the
union: the diff text to record, if any.  As in `compareProbeResultsEntry`,
JS truthiness makes empty content count as absent. -/
def compareResultsEntry (branchFiles baseFiles : List (String × String))
    (endpoint : String) : Option String :=
  let branchContent := lookupField branchFiles endpoint
  let baseContent := lookupField baseFiles endpoint
  if !(jsTruthy branchContent) && jsTruthy baseContent then
    some "Endpoint removed in current branch (was present in base)"
  else if jsTruthy branchContent && !(jsTruthy baseContent) then
    some "Endpoint added in current branch (not present in base)"
  else if branchContent ≠ baseContent then
    generateSimpleDiff endpoint (baseContent.getD "") (branchContent.getD "")
  else none

/-- Embedding of `compareResults` (src/runner.ts): walks the union of the
endpoint sets (branch side first) and records one diff entry per differing
endpoint, into a map keyed by endpoint. -/
def compareResults (branchFiles baseFiles : List (String × String)) :
    List (String × String) :=
  (setDedup (branchFiles.map Prod.fst ++ baseFiles.map Prod.fst)).filterMap
    (fun endpoint =>
      (compareResultsEntry branchFiles baseFiles endpoint).map (fun d => (endpoint, d)))

/-- Result record of one configuration run (`TestResult` in src/types.ts);
`diffs` models the `Map<string, string>` of per-endpoint diff texts. -/
structure TestResult where
  configName : String
  transport : String
  branchTime : Nat
  baseTime : Nat
  hasDifferences : Bool
  diffs : List (String × String)
deriving DecidableEq

/-- The parts of a probe's `ProbeResult` that the runner consumes: its
optional terminal `error` string and the endpoint-to-content map produced
from it by `probeResultToFiles` (an external collaborator declared in the
probe module). -/
structure ProbeSnap where
  error : Option String
  files : List (String × String)
deriving DecidableEq

/-- Environment of one configuration run, giving the outcome of each
external effect: the current-branch probe and its wall-clock duration,
whether `createWorktree` succeeded (it returns a boolean and never
throws), the outcome of the fallback `git checkout` (which can throw), the
outcome of the install/build commands (which throw on non-zero exit), and
the baseline probe and its duration. -/
structure RunEnv where
  branchProbe : ProbeSnap
  branchTime : Nat
  worktreeOk : Bool
  checkoutResult : Except String Unit
  buildResult : Except String Unit
  baseProbe : ProbeSnap
  baseTime : Nat

/-- External actions the runner can perform, for the run trace. -/
inductive RunAction where
  | probeCurrent
  | createWorktree
  | checkout
  | build
  | probeBase
  | compare
  | removeWorktree
  | checkoutPrevious
deriving DecidableEq, BEq

/-- Embedding of `runSingleConfigTest` (src/runner.ts) for a configuration
with the given name and transport, under environment `env`.  Returns the
JS outcome (`Except.error` models an uncaught thrown error, to be caught
by the batch runner) and the ordered action trace.  The `finally` block's
release (worktree removal, or restoration of the previous checkout) is
appended on every path that entered the `try` block. -/
def runSingleConfigTest (name transport : String) (env : RunEnv) :
    Except String TestResult × List RunAction :=
  let result0 : TestResult :=
    { configName := name, transport := transport, branchTime := env.branchTime,
      baseTime := 0, hasDifferences := false, diffs := [] }
  if jsTruthy env.branchProbe.error then
    (Except.ok { result0 with
        hasDifferences := true,
        diffs := [("error", "Current branch probe failed: " ++ env.branchProbe.error.getD "")] },
     [.probeCurrent])
  else
    let useWorktree := env.worktreeOk
    let release : List RunAction :=
      if useWorktree then [.removeWorktree] else [.checkoutPrevious]
    match (if useWorktree then Except.ok () else env.checkoutResult) with
    | .error e =>
        (Except.error e, [.probeCurrent, .createWorktree, .checkout] ++ release)
    | .ok _ =>
      let setupTrace : List RunAction :=
        if useWorktree then [.probeCurrent, .createWorktree]
        else [.probeCurrent, .createWorktree, .checkout]
      match env.buildResult with
      | .error e => (Except.error e, setupTrace ++ [.build] ++ release)
      | .ok _ =>
        if jsTruthy env.baseProbe.error then
          (Except.ok { result0 with
              baseTime := env.baseTime,
              hasDifferences := true,
              diffs := [("error", "Base ref probe failed: " ++ env.baseProbe.error.getD "")] },
           setupTrace ++ [.build, .probeBase] ++ release)
        else
          let diffs := compareResults env.branchProbe.files env.baseProbe.files
          (Except.ok { result0 with
              baseTime := env.baseTime,
              hasDifferences := !diffs.isEmpty,
              diffs := diffs },
           setupTrace ++ [.build, .probeBase, .compare] ++ release)

/-- Name and transport of a test configuration; the remaining configuration
fields (commands, URL, headers, environment overrides) only parameterize
the external effects already captured by `RunEnv`. -/
structure TestConfiguration where
  name : String
  transport : String
deriving DecidableEq

/-- The synthetic failed result the batch runner records for a
configuration whose run threw `e` (`String(error)` is modelled as `e`). -/
def syntheticErrorResult (config : TestConfiguration) (e : String) : TestResult :=
  { configName := config.name, transport := config.transport, branchTime := 0,
    baseTime := 0, hasDifferences := true, diffs := [("error", e)] }

/-- Observable batch events: a configuration's run finished (normally or by
throwing), or its individual result file was written. -/
inductive BatchEvent where
  | ran (name : String)
  | saved (name : String)
deriving DecidableEq

/-- Embedding of `runAllTests` (src/runner.ts), parameterized by the
per-configuration outcome `runOne` (`runSingleConfigTest` under that
configuration's environment; `Except.error` models a thrown error).
Returns the accumulated result list and the ordered trace of batch events:
a normal run is followed by the write of its individual result file; a
thrown run is caught and converted to a synthetic failed result, with no
file write. -/
def runAllTests (runOne : TestConfiguration → Except String TestResult)
    (configs : List TestConfiguration) : List TestResult × List BatchEvent :=
  match configs with
  | [] => ([], [])
  | config :: rest =>
      let tail := runAllTests runOne rest
      match runOne config with
      | .ok result =>
          (result :: tail.1, .ran config.name :: .saved config.name :: tail.2)
      | .error e =>
          (syntheticErrorResult config e :: tail.1, .ran config.name :: tail.2)

/-! Compare-ref resolution (src/git.ts).  The git commands the helpers
shell out to are modelled by an environment record `GitEnv` holding each
command's raw stdout (`none` where the source catches a command failure).
The helpers that run `git rev-list` without a catch are modelled under the
assumption that the command succeeds (a repository always has a first
commit); a failure there would propagate as a thrown error, which no claim
exercises. -/

/-- Outcomes of the git commands used by compare-ref resolution. -/
structure GitEnv where
  /-- Stdout of `git tag --sort=-v:refname`; `none` when the command fails
  (the source returns `null` from its catch). -/
  tagListOutput : Option String
  /-- Stdout of `git rev-list --max-parents=0 HEAD`. -/
  firstCommitOutput : String
  /-- Whether `git rev-parse --verify origin/main` succeeds. -/
  originMainExists : Bool
  /-- Whether `git rev-parse --verify main` succeeds. -/
  mainExists : Bool
  /-- Stdout of `git merge-base HEAD ref` for a given ref; `none` when the
  command fails (the source then falls back to the ref itself). -/
  mergeBaseOutput : String → Option String

/-- Embedding of `findPreviousTag` (src/git.ts): in the version-sorted tag
list, the tag right after the current one, or `none` when the tag command
fails, the current tag is absent, or it is the last entry. -/
def findPreviousTag (env : GitEnv) (currentTag : String) : Option String :=
  match env.tagListOutput with
  | none => none
  | some out =>
      let tags := jsSplit '\n' (jsTrim out)
      match tags.findIdx? (· = currentTag) with
      | some i =>
          if h : i + 1 < tags.length then some (tags.get ⟨i + 1, h⟩) else none
      | none => none

/-- Embedding of `getFirstCommit` (src/git.ts): first line of the root
commits listed by `git rev-list --max-parents=0 HEAD`. -/
def getFirstCommit (env : GitEnv) : String :=
  (jsSplit '\n' (jsTrim env.firstCommitOutput)).headD ""

/-- Embedding of `findMainBranch` (src/git.ts): `origin/main`, else `main`,
else the repository's first commit. -/
def findMainBranch (env : GitEnv) : String :=
  if env.originMainExists then "origin/main"
  else if env.mainExists then "main"
  else getFirstCommit env

/-- Embedding of `getMergeBase` (src/git.ts): trimmed stdout of
`git merge-base HEAD ref`, or the ref itself when the command fails. -/
def getMergeBase (env : GitEnv) (ref : String) : String :=
  match env.mergeBaseOutput ref with
  | some out => jsTrim out
  | none => ref

/-- The `githubRef?.startsWith("refs/tags/")` test: an absent ref is falsy. -/
def isTagPush (githubRef : Option String) : Bool :=
  match githubRef with
  | some g => g.data.take 10 = "refs/tags/".data
  | none => false

/-- Embedding of `determineCompareRef` (src/git.ts).  A truthy explicit ref
wins outright; else a tag push resolves to the previous tag (falling back
to the first commit); else the merge-base with the detected main branch.
`replace("refs/tags/", "")` removes the first occurrence of the pattern,
which under the tag-push guard is the 10-character prefix. -/
def determineCompareRef (env : GitEnv) (explicitRef githubRef : Option String) : String :=
  if jsTruthy explicitRef then explicitRef.getD ""
  else if isTagPush githubRef then
    let currentTag : String := ⟨(githubRef.getD "").data.drop 10⟩
    match findPreviousTag env currentTag with
    | some previousTag =>
        if previousTag != "" && previousTag != currentTag then previousTag
        else getFirstCommit env
    | none => getFirstCommit env
  else
    getMergeBase env (findMainBranch env)

/-- The three compare-ref resolution strategies named by the spec. -/
inductive CompareStrategy where
  | explicitRef
  | previousTag
  | mergeBase
deriving DecidableEq

/-- The strategy `determineCompareRef` dispatches to, read off from its
guards: explicit ref first, then previous-tag on a tag push, then
merge-base. -/
def compareRefStrategy (explicitRef githubRef : Option String) : CompareStrategy :=
  if jsTruthy explicitRef then .explicitRef
  else if isTagPush githubRef then .previousTag
  else .mergeBase

/-- Modelled from the spec: the spec's external-interface section lists the
three resolution strategies "in that priority order" with the merge-base
strategy first, then previous-tag on a tag push, then the explicit
user-specified ref.  The spec attaches no applicability condition to the
merge-base strategy (a merge-base with the auto-detected main-line ref can
always be computed), so trying it first makes it the unconditional winner;
the later strategies are unreachable under the spec's ordering. -/
def determineCompareRefSpecOrder (env : GitEnv)
    (_explicitRef _githubRef : Option String) : String :=
  getMergeBase env (findMainBranch env)

/-! Helper lemmas about association lists, `Map.set`, the item map of
`compareArrays`, `Set`-style deduplication, and keyed `filterMap`s. -/

theorem lookupField_isSome_of_mem_keys {α : Type} {m : List (String × α)} {k : String}
    (h : k ∈ m.map Prod.fst) : (lookupField m k).isSome = true := by
  induction m with
  | nil => simp at h
  | cons e rest ih =>
      simp only [lookupField]
      by_cases he : e.1 = k
      · simp [he]
      · simp only [List.map_cons, List.mem_cons] at h
        rcases h with h | h
        · exact absurd h.symm he
        · simp [he, ih h]

theorem lookupField_mem {α : Type} {m : List (String × α)} {k : String} {v : α}
    (h : lookupField m k = some v) : (k, v) ∈ m := by
  induction m with
  | nil => simp [lookupField] at h
  | cons e rest ih =>
      simp only [lookupField] at h
      by_cases he : e.1 = k
      · rw [if_pos he] at h
        have h2 : e.2 = v := Option.some.inj h
        have : e = (k, v) := by
          cases e
          simp only [Prod.mk.injEq]
          exact ⟨he, h2⟩
        rw [← this]
        exact List.mem_cons_self _ _
      · rw [if_neg he] at h
        exact List.mem_cons_of_mem e (ih h)

theorem lookupField_eq_some_of_mem_nodup {α : Type} {m : List (String × α)}
    (hnd : (m.map Prod.fst).Nodup) {k : String} {v : α} (h : (k, v) ∈ m) :
    lookupField m k = some v := by
  induction m with
  | nil => simp at h
  | cons e rest ih =>
      simp only [List.map_cons, List.nodup_cons] at hnd
      rcases List.mem_cons.mp h with he | hmem
      · rw [← he]
        simp [lookupField]
      · have hne : e.1 ≠ k := by
          intro hk
          exact hnd.1 (hk ▸ List.mem_map_of_mem Prod.fst hmem)
        simp [lookupField, hne, ih hnd.2 hmem]

theorem mem_mapSet {α : Type} {m : List (String × α)} {k : String} {v : α} {e : String × α}
    (h : e ∈ mapSet m k v) : e ∈ m ∨ e = (k, v) := by
  induction m with
  | nil =>
      right
      simpa [mapSet] using h
  | cons f rest ih =>
      simp only [mapSet] at h
      by_cases hf : f.1 = k
      · rw [if_pos hf] at h
        rcases List.mem_cons.mp h with he | hmem
        · right; rw [he, hf]
        · left; exact List.mem_cons_of_mem f hmem
      · rw [if_neg hf] at h
        rcases List.mem_cons.mp h with he | hmem
        · left; rw [he]; exact List.mem_cons_self _ _
        · rcases ih hmem with h1 | h1
          · left; exact List.mem_cons_of_mem f h1
          · right; exact h1

theorem mem_keys_mapSet {α : Type} {m : List (String × α)} {k : String} {v : α} {q : String} :
    q ∈ (mapSet m k v).map Prod.fst ↔ q ∈ m.map Prod.fst ∨ q = k := by
  induction m with
  | nil => simp [mapSet]
  | cons f rest ih =>
      simp only [mapSet]
      by_cases hf : f.1 = k
      · rw [if_pos hf]
        simp only [List.map_cons, List.mem_cons]
        constructor
        · rintro (h | h)
          · exact Or.inl (Or.inl h)
          · exact Or.inl (Or.inr h)
        · rintro ((h | h) | h)
          · exact Or.inl h
          · exact Or.inr h
          · exact Or.inl (h ▸ hf.symm)
      · rw [if_neg hf]
        simp only [List.map_cons, List.mem_cons, ih]
        tauto

theorem mapSet_keys_nodup {α : Type} {m : List (String × α)}
    (hnd : (m.map Prod.fst).Nodup) (k : String) (v : α) :
    ((mapSet m k v).map Prod.fst).Nodup := by
  induction m with
  | nil => simp [mapSet]
  | cons f rest ih =>
      simp only [List.map_cons, List.nodup_cons] at hnd
      simp only [mapSet]
      by_cases hf : f.1 = k
      · rw [if_pos hf]
        simp only [List.map_cons, List.nodup_cons]
        exact hnd
      · rw [if_neg hf]
        simp only [List.map_cons, List.nodup_cons]
        refine ⟨?_, ih hnd.2⟩
        intro hmem
        rcases mem_keys_mapSet.mp hmem with h1 | h1
        · exact hnd.1 h1
        · exact hf h1

theorem buildItemsAux_keys_nodup (xs : List JsVal) (i : Nat) (acc : List (String × JsVal))
    (hnd : (acc.map Prod.fst).Nodup) : ((buildItemsAux xs i acc).map Prod.fst).Nodup := by
  induction xs generalizing i acc with
  | nil => exact hnd
  | cons x rest ih => exact ih _ _ (mapSet_keys_nodup hnd _ _)

theorem buildItems_keys_nodup (xs : List JsVal) : ((buildItems xs).map Prod.fst).Nodup :=
  buildItemsAux_keys_nodup xs 0 [] (by simp)

theorem mem_buildItemsAux {xs : List JsVal} {i : Nat} {acc : List (String × JsVal)}
    {e : String × JsVal} (h : e ∈ buildItemsAux xs i acc) :
    e ∈ acc ∨ (e.2 ∈ xs ∧ ∃ j, e.1 = getItemKey e.2 j) := by
  induction xs generalizing i acc with
  | nil => left; exact h
  | cons x rest ih =>
      rcases ih h with hacc | hx
      · rcases mem_mapSet hacc with h1 | h1
        · left; exact h1
        · right
          rw [h1]
          exact ⟨List.mem_cons_self _ _, i, rfl⟩
      · right
        exact ⟨List.mem_cons_of_mem x hx.1, hx.2⟩

theorem mem_buildItems {xs : List JsVal} {e : String × JsVal} (h : e ∈ buildItems xs) :
    e.2 ∈ xs ∧ ∃ j, e.1 = getItemKey e.2 j := by
  rcases mem_buildItemsAux h with hacc | hx
  · simp at hacc
  · exact hx

theorem mem_keys_buildItemsAux_mono {xs : List JsVal} {i : Nat}
    {acc : List (String × JsVal)} {k : String} (h : k ∈ acc.map Prod.fst) :
    k ∈ (buildItemsAux xs i acc).map Prod.fst := by
  induction xs generalizing i acc with
  | nil => exact h
  | cons x rest ih => exact ih (mem_keys_mapSet.mpr (Or.inl h))

theorem keyOf_mem_keys_buildItemsAux (keyOf : JsVal → String) {xs : List JsVal}
    (hk : ∀ x ∈ xs, ∀ n, getItemKey x n = keyOf x) :
    ∀ x ∈ xs, ∀ (i : Nat) (acc : List (String × JsVal)),
      keyOf x ∈ (buildItemsAux xs i acc).map Prod.fst := by
  induction xs with
  | nil => intro x hx; simp at hx
  | cons y rest ih =>
      intro x hx i acc
      simp only [buildItemsAux]
      rcases List.mem_cons.mp hx with he | hmem
      · apply mem_keys_buildItemsAux_mono
        rw [he]
        rw [← hk y (List.mem_cons_self _ _) i]
        exact mem_keys_mapSet.mpr (Or.inr rfl)
      · exact ih (fun z hz n => hk z (List.mem_cons_of_mem y hz) n) x hmem (i + 1) _

theorem mem_setDedupAux {l seen : List String} {k : String} :
    k ∈ setDedupAux l seen ↔ (k ∈ l ∧ k ∉ seen) := by
  induction l generalizing seen with
  | nil => simp [setDedupAux]
  | cons x rest ih =>
      simp only [setDedupAux]
      by_cases hx : x ∈ seen
      · rw [if_pos hx, ih]
        constructor
        · rintro ⟨h1, h2⟩
          exact ⟨List.mem_cons_of_mem x h1, h2⟩
        · rintro ⟨h1, h2⟩
          rcases List.mem_cons.mp h1 with he | h1
          · exact absurd (he ▸ hx) h2
          · exact ⟨h1, h2⟩
      · rw [if_neg hx]
        constructor
        · intro hmem
          rcases List.mem_cons.mp hmem with rfl | hmem
          · exact ⟨List.mem_cons_self _ _, hx⟩
          · obtain ⟨h1, h2⟩ := ih.mp hmem
            exact ⟨List.mem_cons_of_mem x h1, fun hk => h2 (List.mem_cons_of_mem x hk)⟩
        · rintro ⟨h1, h2⟩
          rcases List.mem_cons.mp h1 with rfl | h1
          · exact List.mem_cons_self _ _
          · by_cases hkx : k = x
            · exact hkx ▸ List.mem_cons_self _ _
            · refine List.mem_cons_of_mem x (ih.mpr ⟨h1, ?_⟩)
              intro hk
              rcases List.mem_cons.mp hk with h | h
              · exact hkx h
              · exact h2 h

theorem setDedupAux_nodup (l seen : List String) : (setDedupAux l seen).Nodup := by
  induction l generalizing seen with
  | nil => simp [setDedupAux]
  | cons x rest ih =>
      simp only [setDedupAux]
      by_cases hx : x ∈ seen
      · rw [if_pos hx]; exact ih _
      · rw [if_neg hx]
        refine List.nodup_cons.mpr ⟨?_, ih _⟩
        intro hmem
        exact (mem_setDedupAux.mp hmem).2 (List.mem_cons_self _ _)

theorem mem_setDedup {l : List String} {k : String} : k ∈ setDedup l ↔ k ∈ l := by
  simp [setDedup, mem_setDedupAux]

theorem setDedup_nodup (l : List String) : (setDedup l).Nodup :=
  setDedupAux_nodup l []

theorem lookupField_filterMap_eq_none {β : Type} {l : List String} {f : String → Option β}
    {e : String} (he : e ∉ l) :
    lookupField (l.filterMap (fun k => (f k).map (fun d => (k, d)))) e = none := by
  induction l with
  | nil => rfl
  | cons x rest ih =>
      have hne : x ≠ e := fun h => he (h ▸ List.mem_cons_self _ _)
      have he' : e ∉ rest := fun h => he (List.mem_cons_of_mem x h)
      simp only [List.filterMap_cons]
      cases hfx : f x with
      | none => exact ih he'
      | some d => simp [lookupField, hne, ih he']

theorem lookupField_filterMap {β : Type} {l : List String} {f : String → Option β}
    {e : String} (hnd : l.Nodup) (he : e ∈ l) :
    lookupField (l.filterMap (fun k => (f k).map (fun d => (k, d)))) e = f e := by
  induction l with
  | nil => simp at he
  | cons x rest ih =>
      rcases List.nodup_cons.mp hnd with ⟨hx, hnd'⟩
      rcases List.mem_cons.mp he with rfl | hmem
      · cases hfe : f e with
        | none =>
            simp only [List.filterMap_cons, hfe, Option.map_none']
            exact lookupField_filterMap_eq_none hx
        | some d => simp [List.filterMap_cons, hfe, lookupField]
      · have hne : x ≠ e := fun h => hx (h ▸ hmem)
        simp only [List.filterMap_cons]
        cases hfx : f x with
        | none => exact ih hnd' hmem
        | some d => simp [lookupField, hne, ih hnd' hmem]

theorem findJsonDifferencesF_self :
    ∀ (fuel : Nat) (x : JsVal) (path : String), findJsonDifferencesF fuel x x path = [] := by
  intro fuel
  induction fuel with
  | zero => intro x path; rfl
  | succ n ih =>
      intro x path
      cases x with
      | null => simp [findJsonDifferencesF, isNullOrUndef]
      | undef => simp [findJsonDifferencesF, isNullOrUndef]
      | bool b => simp [findJsonDifferencesF, isNullOrUndef, typeofJs, scalarEq]
      | num v => simp [findJsonDifferencesF, isNullOrUndef, typeofJs, scalarEq]
      | str s => simp [findJsonDifferencesF, isNullOrUndef, typeofJs, scalarEq]
      | arr xs =>
          simp only [findJsonDifferencesF, isNullOrUndef, typeofJs, ne_eq, not_true_eq_false,
            Bool.false_eq_true, if_false, ite_false, if_true, ite_true]
          simp only [List.append_eq_nil]
          refine ⟨⟨?_, ?_⟩, ?_⟩
          · rw [List.map_eq_nil_iff, List.filter_eq_nil_iff]
            intro e he
            have hs := lookupField_isSome_of_mem_keys (List.mem_map_of_mem Prod.fst he)
            cases hl : lookupField (buildItems xs) e.1 with
            | none => rw [hl] at hs; simp at hs
            | some t => simp [hl]
          · rw [List.map_eq_nil_iff, List.filter_eq_nil_iff]
            intro e he
            have hs := lookupField_isSome_of_mem_keys (List.mem_map_of_mem Prod.fst he)
            cases hl : lookupField (buildItems xs) e.1 with
            | none => rw [hl] at hs; simp at hs
            | some t => simp [hl]
          · rw [List.flatMap_eq_nil_iff]
            intro e he
            cases hl : lookupField (buildItems xs) e.1 with
            | none => rfl
            | some t =>
                have h2 := lookupField_eq_some_of_mem_nodup (buildItems_keys_nodup xs)
                  (show (e.1, e.2) ∈ buildItems xs by rw [Prod.mk.eta]; exact he)
                rw [hl] at h2
                have ht : t = e.2 := Option.some.inj h2
                simp only [ht]
                exact ih e.2 _
      | obj fs =>
          simp only [findJsonDifferencesF, isNullOrUndef, typeofJs, ne_eq, not_true_eq_false,
            Bool.false_eq_true, if_false, ite_false, if_true, ite_true, objFields]
          rw [List.flatMap_eq_nil_iff]
          intro key hkey
          have hmem : key ∈ fs.map Prod.fst := by
            rcases List.mem_append.mp (mem_setDedup.mp hkey) with h | h
            · exact h
            · exact h
          have hs := lookupField_isSome_of_mem_keys hmem
          cases hl : jsGetKey (.obj fs) key with
          | none =>
              simp only [jsGetKey, objFields] at hl
              rw [hl] at hs
              simp at hs
          | some v =>
              simp only [hl]
              exact ih v _

/-- C8: the structural diff is reflexive — for every JSON-like value,
including nested objects and arrays, diffing the value against itself at
the empty path yields an empty list of difference lines. -/
theorem c8_diff_reflexive (x : JsVal) : findJsonDifferences x x "" = [] :=
  findJsonDifferencesF_self _ x ""

theorem lookupField_mapSet {α : Type} (m : List (String × α)) (k : String) (v : α)
    (q : String) :
    lookupField (mapSet m k v) q = if q = k then some v else lookupField m q := by
  induction m with
  | nil =>
      by_cases hq : q = k
      · simp [mapSet, lookupField, hq]
      · have hq' : ¬ k = q := fun h => hq h.symm
        simp [mapSet, lookupField, hq, hq']
  | cons f rest ih =>
      by_cases hf : f.1 = k
      · by_cases hq : q = k
        · have h1 : f.1 = q := by rw [hf, hq]
          simp [mapSet, hf, lookupField, h1, hq]
        · have h1 : ¬ f.1 = q := fun h => hq (by rw [← h, hf])
          have h2 : ¬ k = q := fun h => hq h.symm
          simp [mapSet, hf, lookupField, h1, hq, h2]
      · by_cases hfq : f.1 = q
        · have h1 : ¬ q = k := fun h => hf (by rw [hfq, h])
          simp [mapSet, hf, lookupField, hfq, h1]
        · simp [mapSet, hf, lookupField, hfq, ih]

theorem lookupField_buildItemsAux (xs : List JsVal) (i : Nat)
    (acc : List (String × JsVal)) (k : String) :
    lookupField (buildItemsAux xs i acc) k =
      match ((xs.enumFrom i).filter (fun p => getItemKey p.2 p.1 = k)).getLast? with
      | some p => some p.2
      | none => lookupField acc k := by
  induction xs generalizing i acc with
  | nil => rfl
  | cons x rest ih =>
      have hstep : buildItemsAux (x :: rest) i acc
          = buildItemsAux rest (i + 1) (mapSet acc (getItemKey x i) x) := rfl
      have henum : (x :: rest).enumFrom i = (i, x) :: rest.enumFrom (i + 1) := rfl
      rw [hstep, ih, henum, List.filter_cons]
      by_cases hx : getItemKey x i = k
      · cases hl : ((rest.enumFrom (i + 1)).filter (fun p => getItemKey p.2 p.1 = k)).getLast? with
        | some q => simp [hx, List.getLast?_cons, hl]
        | none => simp [hx, List.getLast?_cons, hl, lookupField_mapSet]
      · cases hl : ((rest.enumFrom (i + 1)).filter (fun p => getItemKey p.2 p.1 = k)).getLast? with
        | some q => simp [hx, hl]
        | none =>
            have h1 : ¬ k = getItemKey x i := fun h => hx h.symm
            simp [hx, hl, lookupField_mapSet, h1]

/-- C9 (implicit): in the item map that array reconciliation consults, a
key maps to the value of the *last* array member that derived it — so when
several members of one array derive the same identity key (same `name`, or
a `"#i"` collision), only the last one participates in the removed /
added / modified comparison, and the shadowed members are silently absent
from the diff output.  The first conjunct characterizes the map
(`compareArrays` reads items only through it); the second is a concrete
shadowing instance: the first member (`v = 1`) is shadowed by the second
(`v = 2`), so diffing against the singleton `v = 2` array reports
nothing. -/
theorem c9_duplicate_keys_last_wins :
    (∀ (xs : List JsVal) (k : String),
        lookupField (buildItems xs) k =
          ((xs.enum.filter (fun p => getItemKey p.2 p.1 = k)).getLast?).map Prod.snd)
    ∧ compareArrays
        [JsVal.obj [("name", .str "x"), ("v", .num 1)],
         JsVal.obj [("name", .str "x"), ("v", .num 2)]]
        [JsVal.obj [("name", .str "x"), ("v", .num 2)]] "" = [] := by
  constructor
  · intro xs k
    rw [buildItems, lookupField_buildItemsAux]
    cases hl : ((xs.enumFrom 0).filter (fun p => getItemKey p.2 p.1 = k)).getLast? with
    | some q => simp [List.enum, hl]
    | none => simp [List.enum, hl, lookupField]
  · decide

theorem getItemKey_of_named {x : JsVal} (h : (itemName x).isSome = true) (n : Nat) :
    getItemKey x n = (itemName x).getD "" := by
  cases x with
  | obj fs =>
      simp only [itemName] at h ⊢
      cases hs : stringField fs "name" with
      | none => rw [hs] at h; simp at h
      | some s => simp [getItemKey, hs]
  | null => simp [itemName] at h
  | undef => simp [itemName] at h
  | bool b => simp [itemName] at h
  | num v => simp [itemName] at h
  | str s => simp [itemName] at h
  | arr xs => simp [itemName] at h

theorem findJsonDifferencesF_arr_perm (fuel : Nat) (bs ts : List JsVal) (path : String)
    (hperm : List.Perm bs ts)
    (hnamed : ∀ x ∈ bs, (itemName x).isSome = true)
    (hnodup : (bs.map (fun x => (itemName x).getD "")).Nodup) :
    findJsonDifferencesF fuel (.arr bs) (.arr ts) path = [] := by
  have hnamed' : ∀ x ∈ ts, (itemName x).isSome = true :=
    fun x hx => hnamed x (hperm.mem_iff.mpr hx)
  have hkb : ∀ x ∈ bs, ∀ n, getItemKey x n = (itemName x).getD "" :=
    fun x hx n => getItemKey_of_named (hnamed x hx) n
  have hkt : ∀ x ∈ ts, ∀ n, getItemKey x n = (itemName x).getD "" :=
    fun x hx n => getItemKey_of_named (hnamed' x hx) n
  have hnodup' : (ts.map (fun x => (itemName x).getD "")).Nodup :=
    (List.Perm.nodup_iff (hperm.map _)).mp hnodup
  have hbkeys : ∀ e ∈ buildItems bs, e.1 = (itemName e.2).getD "" ∧ e.2 ∈ bs := by
    intro e he
    obtain ⟨hmem, j, hj⟩ := mem_buildItems he
    exact ⟨hj.trans (hkb e.2 hmem j), hmem⟩
  have htkeys : ∀ e ∈ buildItems ts, e.1 = (itemName e.2).getD "" ∧ e.2 ∈ ts := by
    intro e he
    obtain ⟨hmem, j, hj⟩ := mem_buildItems he
    exact ⟨hj.trans (hkt e.2 hmem j), hmem⟩
  cases fuel with
  | zero => rfl
  | succ n =>
      simp only [findJsonDifferencesF, isNullOrUndef, typeofJs, ne_eq, not_true_eq_false,
        Bool.false_eq_true, if_false, ite_false, if_true, ite_true]
      simp only [List.append_eq_nil]
      refine ⟨⟨?_, ?_⟩, ?_⟩
      · rw [List.map_eq_nil_iff, List.filter_eq_nil_iff]
        intro e he
        obtain ⟨hkey, hmem⟩ := hbkeys e he
        have hmem' : e.2 ∈ ts := hperm.mem_iff.mp hmem
        have hk2 : e.1 ∈ (buildItems ts).map Prod.fst := by
          rw [buildItems]
          exact hkey ▸ keyOf_mem_keys_buildItemsAux (fun x => (itemName x).getD "") hkt e.2 hmem' 0 []
        have hs := lookupField_isSome_of_mem_keys hk2
        cases hl : lookupField (buildItems ts) e.1 with
        | none => rw [hl] at hs; simp at hs
        | some t => simp [hl]
      · rw [List.map_eq_nil_iff, List.filter_eq_nil_iff]
        intro e he
        obtain ⟨hkey, hmem⟩ := htkeys e he
        have hmem' : e.2 ∈ bs := hperm.mem_iff.mpr hmem
        have hk2 : e.1 ∈ (buildItems bs).map Prod.fst := by
          rw [buildItems]
          exact hkey ▸ keyOf_mem_keys_buildItemsAux (fun x => (itemName x).getD "") hkb e.2 hmem' 0 []
        have hs := lookupField_isSome_of_mem_keys hk2
        cases hl : lookupField (buildItems bs) e.1 with
        | none => rw [hl] at hs; simp at hs
        | some t => simp [hl]
      · rw [List.flatMap_eq_nil_iff]
        intro e he
        obtain ⟨hkey, hmem⟩ := hbkeys e he
        cases hl : lookupField (buildItems ts) e.1 with
        | none => rfl
        | some t =>
            obtain ⟨hkeyt, hmemt⟩ := htkeys (e.1, t) (lookupField_mem hl)
            have hteq : t = e.2 :=
              List.inj_on_of_nodup_map hnodup' hmemt (hperm.mem_iff.mp hmem)
                (hkeyt.symm.trans hkey)
            simp only [hteq]
            exact findJsonDifferencesF_self n e.2 _

/-- C7: array reconciliation by identity key is order-insensitive — two
arrays holding the same name-keyed members (names pairwise distinct) in
possibly different orders, with no field-level changes, diff to an empty
list at any path. -/
theorem c7_reorder_no_diff (bs ts : List JsVal) (path : String)
    (hperm : List.Perm bs ts)
    (hnamed : ∀ x ∈ bs, (itemName x).isSome = true)
    (hnodup : (bs.map (fun x => (itemName x).getD "")).Nodup) :
    compareArrays bs ts path = [] := by
  unfold compareArrays findJsonDifferences
  exact findJsonDifferencesF_arr_perm _ bs ts path hperm hnamed hnodup

/-- Witness for C7 at the two-element arrays `[a, b]` and `[b, a]`. -/
theorem c7_witness :
    List.Perm [JsVal.obj [("name", .str "a")], JsVal.obj [("name", .str "b")]]
        [JsVal.obj [("name", .str "b")], JsVal.obj [("name", .str "a")]]
    ∧ (∀ x ∈ [JsVal.obj [("name", .str "a")], JsVal.obj [("name", .str "b")]],
        (itemName x).isSome = true)
    ∧ compareArrays [JsVal.obj [("name", .str "a")], JsVal.obj [("name", .str "b")]]
        [JsVal.obj [("name", .str "b")], JsVal.obj [("name", .str "a")]] "" = [] :=
  ⟨List.Perm.swap (JsVal.obj [("name", .str "b")]) (JsVal.obj [("name", .str "a")]) [],
   by decide,
   c7_reorder_no_diff _ _ ""
     (List.Perm.swap (JsVal.obj [("name", .str "b")]) (JsVal.obj [("name", .str "a")]) [])
     (by decide) (by decide)⟩

theorem jsFuel_pos (v : JsVal) : 1 ≤ jsFuel v := by
  cases v <;> simp [jsFuel]

/-- C6 (amended): for two present values of *different runtime `typeof`*
(e.g. an array versus a number, string, or boolean), the differ emits
exactly one removed line rendering the base and one added line rendering
the target, at the same path, and does not recurse.  The claim's
array-versus-plain-object case is excluded: both have `typeof`
`"object"`, so the differ walks them key-wise instead (see the
counterexample). -/
theorem c6_type_mismatch (base target : JsVal) (path : String)
    (hb : isNullOrUndef base = false) (ht : isNullOrUndef target = false)
    (hty : typeofJs base ≠ typeofJs target) :
    findJsonDifferences base target path =
      ["- " ++ pathOrRoot path ++ ": " ++ formatValue base,
       "+ " ++ pathOrRoot path ++ ": " ++ formatValue target] := by
  have h1 : 1 ≤ jsFuel base := jsFuel_pos base
  obtain ⟨m, hm⟩ : ∃ m, jsFuel base + jsFuel target = m + 1 :=
    ⟨jsFuel base + jsFuel target - 1, by omega⟩
  unfold findJsonDifferences
  rw [hm]
  simp [findJsonDifferencesF, hb, ht, hty]

/-- Witness for C6 at an array versus a number. -/
theorem c6_witness :
    isNullOrUndef (JsVal.arr []) = false ∧ isNullOrUndef (JsVal.num 0) = false
    ∧ typeofJs (JsVal.arr []) ≠ typeofJs (JsVal.num 0)
    ∧ findJsonDifferences (JsVal.arr []) (JsVal.num 0) "" =
        ["- " ++ pathOrRoot "" ++ ": " ++ formatValue (JsVal.arr []),
         "+ " ++ pathOrRoot "" ++ ": " ++ formatValue (JsVal.num 0)] :=
  ⟨rfl, rfl, by decide,
   c6_type_mismatch (JsVal.arr []) (JsVal.num 0) "" rfl rfl (by decide)⟩

/-- Counterexample to C6 as stated: an array and a non-array object are
both of runtime `typeof` `"object"`, so the differ recurses into them
key-wise (array indices against object keys) instead of emitting one
removed and one added line rendering the whole values at the same path. -/
theorem c6_counterexample :
    findJsonDifferences (JsVal.arr [.num 1]) (JsVal.obj [("a", .num 1)]) "" =
        ["- 0: 1", "+ a: 1"]
    ∧ findJsonDifferences (JsVal.arr [.num 1]) (JsVal.obj [("a", .num 1)]) "" ≠
        ["- " ++ pathOrRoot "" ++ ": " ++ formatValue (JsVal.arr [.num 1]),
         "+ " ++ pathOrRoot "" ++ ": " ++ formatValue (JsVal.obj [("a", .num 1)])] := by
  constructor
  · decide
  · decide

/-- C10 (implicit): an endpoint whose serialized content is the empty
string is treated as absent — when one side's content is `""` and the
other's is non-empty, both the runner's comparison (`compareResults`) and
the structured comparison (`compareProbeResults`) record the constant
"Endpoint removed/added" message for that endpoint instead of invoking
their content differ (for any `JSON.parse` behaviour `parse`). -/
theorem c10_empty_content_as_absent (m1 m2 : List (String × String)) (e c : String)
    (parse : String → Option JsVal) (hc : c ≠ "")
    (h1 : lookupField m1 e = some "") (h2 : lookupField m2 e = some c) :
    lookupField (compareResults m1 m2) e =
        some "Endpoint removed in current branch (was present in base)"
    ∧ lookupField (compareResults m2 m1) e =
        some "Endpoint added in current branch (not present in base)"
    ∧ lookupField (compareProbeResults parse m1 m2) e =
        some "Endpoint added in target (not present in base)"
    ∧ lookupField (compareProbeResults parse m2 m1) e =
        some "Endpoint removed in target (was present in base)" := by
  have hk1 : e ∈ m1.map Prod.fst := List.mem_map_of_mem Prod.fst (lookupField_mem h1)
  have hk2 : e ∈ m2.map Prod.fst := List.mem_map_of_mem Prod.fst (lookupField_mem h2)
  have ht1 : jsTruthy (lookupField m1 e) = false := by rw [h1]; rfl
  have ht2 : jsTruthy (lookupField m2 e) = true := by
    rw [h2]
    simpa [jsTruthy] using hc
  refine ⟨?_, ?_, ?_, ?_⟩
  · rw [compareResults,
      lookupField_filterMap (setDedup_nodup _)
        (mem_setDedup.mpr (List.mem_append.mpr (Or.inl hk1)))]
    simp [compareResultsEntry, ht1, ht2]
  · rw [compareResults,
      lookupField_filterMap (setDedup_nodup _)
        (mem_setDedup.mpr (List.mem_append.mpr (Or.inl hk2)))]
    simp [compareResultsEntry, ht1, ht2]
  · rw [compareProbeResults,
      lookupField_filterMap (setDedup_nodup _)
        (mem_setDedup.mpr (List.mem_append.mpr (Or.inl hk1)))]
    simp [compareProbeResultsEntry, ht1, ht2]
  · rw [compareProbeResults,
      lookupField_filterMap (setDedup_nodup _)
        (mem_setDedup.mpr (List.mem_append.mpr (Or.inl hk2)))]
    simp [compareProbeResultsEntry, ht1, ht2]

/-- Witness for C10 at a one-endpoint map pair with contents `""` and
`"x"`. -/
theorem c10_witness :
    ("x" : String) ≠ ""
    ∧ lookupField [("tools", "")] "tools" = some ""
    ∧ lookupField [("tools", "x")] "tools" = some "x"
    ∧ lookupField (compareResults [("tools", "")] [("tools", "x")]) "tools" =
        some "Endpoint removed in current branch (was present in base)" :=
  ⟨by decide, rfl, rfl,
   (c10_empty_content_as_absent [("tools", "")] [("tools", "x")] "tools" "x"
     (fun _ => none) (by decide) rfl rfl).1⟩

/-- C3: when the current-branch probe returns a snapshot with a terminal
error (a non-empty error string), the run returns a result with
`hasDifferences = true` and a diff map whose only entry is keyed
`"error"`, and its whole action trace is the one probe — baseline
acquisition (worktree creation or checkout) is never attempted. -/
theorem c3_probe_error_short_circuit (name transport : String) (env : RunEnv)
    (e : String) (he : env.branchProbe.error = some e) (hne : e ≠ "") :
    runSingleConfigTest name transport env =
      (Except.ok
        { configName := name
          transport := transport
          branchTime := env.branchTime
          baseTime := 0
          hasDifferences := true
          diffs := [("error", "Current branch probe failed: " ++ e)] },
       [RunAction.probeCurrent]) := by
  have ht : jsTruthy (some e) = true := by simpa [jsTruthy] using hne
  unfold runSingleConfigTest
  rw [he, if_pos ht]
  simp

/-- Witness for C3 at a probe that fails with `"boom"`. -/
theorem c3_witness :
    runSingleConfigTest "default" "stdio"
      { branchProbe := { error := some "boom", files := [] }
        branchTime := 5
        worktreeOk := true
        checkoutResult := Except.ok ()
        buildResult := Except.ok ()
        baseProbe := { error := none, files := [] }
        baseTime := 0 } =
      (Except.ok
        { configName := "default"
          transport := "stdio"
          branchTime := 5
          baseTime := 0
          hasDifferences := true
          diffs := [("error", "Current branch probe failed: " ++ "boom")] },
       [RunAction.probeCurrent]) :=
  c3_probe_error_short_circuit "default" "stdio"
    { branchProbe := { error := some "boom", files := [] }
      branchTime := 5
      worktreeOk := true
      checkoutResult := Except.ok ()
      buildResult := Except.ok ()
      baseProbe := { error := none, files := [] }
      baseTime := 0 }
    "boom" rfl (by decide)

/-- C4: any result a configuration run returns satisfies
`hasDifferences = true` iff its diff collection is non-empty or one of the
two probes produced a terminal (non-empty) error. -/
theorem c4_hasDifferences_iff (name transport : String) (env : RunEnv)
    (r : TestResult) (tr : List RunAction)
    (h : runSingleConfigTest name transport env = (Except.ok r, tr)) :
    r.hasDifferences = true ↔
      (r.diffs ≠ [] ∨ jsTruthy env.branchProbe.error = true
        ∨ jsTruthy env.baseProbe.error = true) := by
  unfold runSingleConfigTest at h
  by_cases hb : jsTruthy env.branchProbe.error = true
  · rw [if_pos hb] at h
    rw [Prod.mk.injEq] at h
    obtain ⟨h1, -⟩ := h
    rw [← Except.ok.inj h1]
    simp [hb]
  · rw [if_neg hb] at h
    by_cases hw : env.worktreeOk
    · simp only [hw, if_true, ite_true] at h
      cases hbd : env.buildResult with
      | error eb => rw [hbd] at h; simp at h
      | ok u =>
          rw [hbd] at h
          by_cases hbase : jsTruthy env.baseProbe.error = true
          · rw [if_pos hbase] at h
            rw [Prod.mk.injEq] at h
            obtain ⟨h1, -⟩ := h
            rw [← Except.ok.inj h1]
            simp [hbase]
          · rw [if_neg hbase] at h
            rw [Prod.mk.injEq] at h
            obtain ⟨h1, -⟩ := h
            rw [← Except.ok.inj h1]
            simp only [Bool.not_eq_true] at hb hbase
            simp [hb, hbase, List.isEmpty_iff]
    · simp only [hw, if_false, ite_false] at h
      cases hco : env.checkoutResult with
      | error ec => rw [hco] at h; simp at h
      | ok u =>
          rw [hco] at h
          cases hbd : env.buildResult with
          | error eb => rw [hbd] at h; simp at h
          | ok u2 =>
              rw [hbd] at h
              by_cases hbase : jsTruthy env.baseProbe.error = true
              · rw [if_pos hbase] at h
                rw [Prod.mk.injEq] at h
                obtain ⟨h1, -⟩ := h
                rw [← Except.ok.inj h1]
                simp [hbase]
              · rw [if_neg hbase] at h
                rw [Prod.mk.injEq] at h
                obtain ⟨h1, -⟩ := h
                rw [← Except.ok.inj h1]
                simp only [Bool.not_eq_true] at hb hbase
                simp [hb, hbase, List.isEmpty_iff]

/-- Witness for C4 at a run whose current-branch probe fails. -/
theorem c4_witness :
    ({ configName := "default"
       transport := "stdio"
       branchTime := 5
       baseTime := 0
       hasDifferences := true
       diffs := [("error", "Current branch probe failed: " ++ "boom")] } :
        TestResult).hasDifferences = true ↔
      (([("error", "Current branch probe failed: " ++ "boom")] :
          List (String × String)) ≠ []
        ∨ jsTruthy (some "boom") = true ∨ jsTruthy (none : Option String) = true) :=
  c4_hasDifferences_iff "default" "stdio"
    { branchProbe := { error := some "boom", files := [] }
      branchTime := 5
      worktreeOk := true
      checkoutResult := Except.ok ()
      buildResult := Except.ok ()
      baseProbe := { error := none, files := [] }
      baseTime := 0 }
    { configName := "default"
      transport := "stdio"
      branchTime := 5
      baseTime := 0
      hasDifferences := true
      diffs := [("error", "Current branch probe failed: " ++ "boom")] }
    [RunAction.probeCurrent] rfl

/-- C5: once a run reaches baseline acquisition (the current-branch probe
did not short-circuit), exactly one release action is executed, it is the
worktree removal when a worktree was created and the checkout restoration
otherwise, and it is the last action before the run returns — on every
path, including a thrown checkout or build and a failed baseline probe. -/
theorem c5_release_exactly_once (name transport : String) (env : RunEnv)
    (hb : jsTruthy env.branchProbe.error = false) :
    ((runSingleConfigTest name transport env).2.count RunAction.removeWorktree
        + (runSingleConfigTest name transport env).2.count RunAction.checkoutPrevious = 1)
    ∧ (runSingleConfigTest name transport env).2.getLast? =
        some (if env.worktreeOk then RunAction.removeWorktree
              else RunAction.checkoutPrevious) := by
  unfold runSingleConfigTest
  rw [if_neg (by simp [hb])]
  by_cases hw : env.worktreeOk
  · simp only [hw, if_true, ite_true]
    cases hbd : env.buildResult with
    | error eb => exact ⟨rfl, rfl⟩
    | ok u =>
        by_cases hbase : jsTruthy env.baseProbe.error = true
        · rw [if_pos hbase]
          exact ⟨rfl, rfl⟩
        · rw [if_neg hbase]
          exact ⟨rfl, rfl⟩
  · simp only [Bool.not_eq_true] at hw
    simp only [hw]
    cases hco : env.checkoutResult with
    | error ec => exact ⟨rfl, rfl⟩
    | ok u =>
        cases hbd : env.buildResult with
        | error eb => exact ⟨rfl, rfl⟩
        | ok u2 =>
            by_cases hbase : jsTruthy env.baseProbe.error = true
            · rw [if_pos hbase]
              exact ⟨rfl, rfl⟩
            · rw [if_neg hbase]
              exact ⟨rfl, rfl⟩

/-- Witness for C5 at a run with a failing build and no worktree. -/
theorem c5_witness :
    jsTruthy ({ branchProbe := { error := none, files := [] }
                branchTime := 1
                worktreeOk := false
                checkoutResult := Except.ok ()
                buildResult := Except.error "build failed"
                baseProbe := { error := none, files := [] }
                baseTime := 0 } : RunEnv).branchProbe.error = false
    ∧ (((runSingleConfigTest "default" "stdio"
        { branchProbe := { error := none, files := [] }
          branchTime := 1
          worktreeOk := false
          checkoutResult := Except.ok ()
          buildResult := Except.error "build failed"
          baseProbe := { error := none, files := [] }
          baseTime := 0 }).2.count RunAction.removeWorktree
      + (runSingleConfigTest "default" "stdio"
        { branchProbe := { error := none, files := [] }
          branchTime := 1
          worktreeOk := false
          checkoutResult := Except.ok ()
          buildResult := Except.error "build failed"
          baseProbe := { error := none, files := [] }
          baseTime := 0 }).2.count RunAction.checkoutPrevious = 1)
    ∧ (runSingleConfigTest "default" "stdio"
        { branchProbe := { error := none, files := [] }
          branchTime := 1
          worktreeOk := false
          checkoutResult := Except.ok ()
          buildResult := Except.error "build failed"
          baseProbe := { error := none, files := [] }
          baseTime := 0 }).2.getLast? =
        some (if ({ branchProbe := { error := none, files := [] }
                    branchTime := 1
                    worktreeOk := false
                    checkoutResult := Except.ok ()
                    buildResult := Except.error "build failed"
                    baseProbe := { error := none, files := [] }
                    baseTime := 0 } : RunEnv).worktreeOk
              then RunAction.removeWorktree else RunAction.checkoutPrevious)) :=
  ⟨rfl,
   c5_release_exactly_once "default" "stdio"
    { branchProbe := { error := none, files := [] }
      branchTime := 1
      worktreeOk := false
      checkoutResult := Except.ok ()
      buildResult := Except.error "build failed"
      baseProbe := { error := none, files := [] }
      baseTime := 0 } rfl⟩

/-- C2 (amended): the batch runner yields one result per configuration in
order — the run's own result when it returns normally, the synthetic
failed result when it throws — and its event trace shows that a normal
run's result file is written immediately after that run and before the
next one begins, while a thrown run produces *no* individual result file.
(The claim as stated — persistence after every run, thrown or not — fails;
see the counterexample.) -/
theorem c2_persistence_characterization
    (runOne : TestConfiguration → Except String TestResult)
    (configs : List TestConfiguration) :
    runAllTests runOne configs =
      (configs.map (fun c =>
          match runOne c with
          | .ok r => r
          | .error e => syntheticErrorResult c e),
       configs.flatMap (fun c =>
          match runOne c with
          | .ok _ => [BatchEvent.ran c.name, BatchEvent.saved c.name]
          | .error _ => [BatchEvent.ran c.name])) := by
  induction configs with
  | nil => rfl
  | cons c rest ih =>
      simp only [runAllTests, ih, List.map_cons, List.flatMap_cons]
      cases runOne c <;> simp

/-- Counterexample to C2 as stated: a configuration whose run throws is
caught and converted into a failed result, but the batch trace records no
`saved` event for it — its result is never persisted to an individual
result file, although per the claim every completed run (normal or thrown)
is persisted before the next begins. -/
theorem c2_counterexample :
    (runAllTests (fun _ => Except.error "boom")
        [{ name := "a", transport := "stdio" }]).2 = [BatchEvent.ran "a"]
    ∧ (runAllTests (fun _ => Except.error "boom")
        [{ name := "a", transport := "stdio" }]).2 ≠
        [BatchEvent.ran "a", BatchEvent.saved "a"] := by
  exact ⟨rfl, by decide⟩

/-- C1 (amended): exactly one of the three compare-ref strategies applies
per invocation, and they are tried in the priority order *explicit
user-specified ref first*, then previous-tag on a tag push (falling back
to the first commit when no earlier tag exists), then merge-base with the
auto-detected main-line ref — the reverse of the order the spec states
(see the counterexample).  The first three conjuncts characterize which
strategy applies; the last says the applying strategy alone determines the
resolved ref. -/
theorem c1_strategy_priority (env : GitEnv) (explicitRef githubRef : Option String) :
    (compareRefStrategy explicitRef githubRef = .explicitRef ↔
        jsTruthy explicitRef = true)
    ∧ (compareRefStrategy explicitRef githubRef = .previousTag ↔
        (jsTruthy explicitRef = false ∧ isTagPush githubRef = true))
    ∧ (compareRefStrategy explicitRef githubRef = .mergeBase ↔
        (jsTruthy explicitRef = false ∧ isTagPush githubRef = false))
    ∧ determineCompareRef env explicitRef githubRef =
        (match compareRefStrategy explicitRef githubRef with
         | .explicitRef => explicitRef.getD ""
         | .previousTag =>
            (match findPreviousTag env ⟨(githubRef.getD "").data.drop 10⟩ with
             | some previousTag =>
                if previousTag != "" && previousTag != (⟨(githubRef.getD "").data.drop 10⟩ : String)
                then previousTag
                else getFirstCommit env
             | none => getFirstCommit env)
         | .mergeBase => getMergeBase env (findMainBranch env)) := by
  by_cases hx : jsTruthy explicitRef = true
  · simp [compareRefStrategy, determineCompareRef, hx]
  · simp only [Bool.not_eq_true] at hx
    by_cases ht : isTagPush githubRef = true
    · simp [compareRefStrategy, determineCompareRef, hx, ht]
    · simp only [Bool.not_eq_true] at ht
      simp [compareRefStrategy, determineCompareRef, hx, ht]

/-- Counterexample to C1 as stated: with an explicit compare ref supplied
and no tag push, the code resolves to the explicit ref, whereas under the
spec's stated priority order (merge-base tried first) the merge-base would
win; the two resolutions differ at this input. -/
theorem c1_counterexample :
    determineCompareRef
        { tagListOutput := none, firstCommitOutput := "c0", originMainExists := true,
          mainExists := true, mergeBaseOutput := fun _ => some "mb0" }
        (some "release-1") none = "release-1"
    ∧ determineCompareRefSpecOrder
        { tagListOutput := none, firstCommitOutput := "c0", originMainExists := true,
          mainExists := true, mergeBaseOutput := fun _ => some "mb0" }
        (some "release-1") none = "mb0"
    ∧ ("release-1" : String) ≠ "mb0" := by
  refine ⟨rfl, ?_, by decide⟩
  show jsTrim "mb0" = "mb0"
  decide

/-! Fuel adequacy: `findJsonDifferencesF` is independent of the fuel as
soon as the fuel covers the combined size of the two values, so the
wrapper `findJsonDifferences` computes the unique fixpoint of the source's
recursion — the fuel-exhaustion base case is unreachable from it. -/

theorem jsFuelFields_le_of_mem {fs : List (String × JsVal)} {k : String} {v : JsVal}
    (h : (k, v) ∈ fs) : jsFuel v ≤ jsFuelFields fs := by
  induction fs with
  | nil => simp at h
  | cons f rest ih =>
      rcases List.mem_cons.mp h with he | hmem
      · obtain ⟨f1, f2⟩ := f
        obtain ⟨-, rfl⟩ := Prod.mk.injEq .. |>.mp he.symm
        simp [jsFuelFields]
      · obtain ⟨f1, f2⟩ := f
        have := ih hmem
        simp only [jsFuelFields]
        omega

theorem jsFuelList_le_of_mem {xs : List JsVal} {v : JsVal} (h : v ∈ xs) :
    jsFuel v ≤ jsFuelList xs := by
  induction xs with
  | nil => simp at h
  | cons x rest ih =>
      rcases List.mem_cons.mp h with rfl | hmem
      · simp [jsFuelList]
      · have := ih hmem
        simp only [jsFuelList]
        omega

theorem jsGetKey_fuel_lt {x : JsVal} {k : String} {v : JsVal}
    (h : jsGetKey x k = some v) : jsFuel v < jsFuel x := by
  cases x with
  | obj fs =>
      have hmem : (k, v) ∈ fs := lookupField_mem (by simpa [jsGetKey, objFields] using h)
      have h1 := jsFuelFields_le_of_mem hmem
      have h2 : jsFuel (JsVal.obj fs) = 1 + jsFuelFields fs := by simp [jsFuel]
      omega
  | arr xs =>
      have hmem : (k, v) ∈ xs.enum.map (fun p => (toString p.1, p.2)) :=
        lookupField_mem (by simpa [jsGetKey, objFields] using h)
      obtain ⟨p, hp, hpe⟩ := List.mem_map.mp hmem
      have hv : v ∈ xs := by
        have := List.snd_mem_of_mem_enumFrom (by simpa [List.enum] using hp)
        obtain ⟨-, rfl⟩ := Prod.mk.injEq .. |>.mp hpe
        exact this
      have h1 := jsFuelList_le_of_mem hv
      have h2 : jsFuel (JsVal.arr xs) = 1 + jsFuelList xs := by simp [jsFuel]
      omega
  | null => simp [jsGetKey, objFields, lookupField] at h
  | undef => simp [jsGetKey, objFields, lookupField] at h
  | bool b => simp [jsGetKey, objFields, lookupField] at h
  | num n => simp [jsGetKey, objFields, lookupField] at h
  | str s => simp [jsGetKey, objFields, lookupField] at h

theorem buildItems_fuel_le {xs : List JsVal} {k : String} {v : JsVal}
    (h : lookupField (buildItems xs) k = some v) : jsFuel v ≤ jsFuelList xs :=
  jsFuelList_le_of_mem (mem_buildItems (lookupField_mem h)).1

theorem findJsonDifferencesF_stable :
    ∀ (n : Nat) (b t : JsVal) (p : String) (m : Nat),
      jsFuel b + jsFuel t ≤ n → jsFuel b + jsFuel t ≤ m →
      findJsonDifferencesF n b t p = findJsonDifferencesF m b t p := by
  intro n
  induction n with
  | zero =>
      intro b t p m h1 h2
      have hfb := jsFuel_pos b
      omega
  | succ n ih =>
      intro b t p m h1 h2
      have hfb := jsFuel_pos b
      have hft := jsFuel_pos t
      obtain ⟨m', rfl⟩ : ∃ m', m = m' + 1 := ⟨m - 1, by omega⟩
      by_cases hN1 : isNullOrUndef b = true
      · simp [findJsonDifferencesF, hN1]
      · by_cases hN2 : isNullOrUndef t = true
        · simp [findJsonDifferencesF, hN1, hN2]
        · by_cases hty : typeofJs b = typeofJs t
          · cases b with
            | null => simp [isNullOrUndef] at hN1
            | undef => simp [isNullOrUndef] at hN1
            | bool x =>
                cases t with
                | null => simp [isNullOrUndef] at hN2
                | undef => simp [isNullOrUndef] at hN2
                | bool y => simp [findJsonDifferencesF, isNullOrUndef, typeofJs]
                | num y => simp [typeofJs] at hty
                | str y => simp [typeofJs] at hty
                | arr ys => simp [typeofJs] at hty
                | obj gs => simp [typeofJs] at hty
            | num x =>
                cases t with
                | null => simp [isNullOrUndef] at hN2
                | undef => simp [isNullOrUndef] at hN2
                | num y => simp [findJsonDifferencesF, isNullOrUndef, typeofJs]
                | bool y => simp [typeofJs] at hty
                | str y => simp [typeofJs] at hty
                | arr ys => simp [typeofJs] at hty
                | obj gs => simp [typeofJs] at hty
            | str x =>
                cases t with
                | null => simp [isNullOrUndef] at hN2
                | undef => simp [isNullOrUndef] at hN2
                | str y => simp [findJsonDifferencesF, isNullOrUndef, typeofJs]
                | bool y => simp [typeofJs] at hty
                | num y => simp [typeofJs] at hty
                | arr ys => simp [typeofJs] at hty
                | obj gs => simp [typeofJs] at hty
            | arr bs =>
                cases t with
                | null => simp [isNullOrUndef] at hN2
                | undef => simp [isNullOrUndef] at hN2
                | bool y => simp [typeofJs] at hty
                | num y => simp [typeofJs] at hty
                | str y => simp [typeofJs] at hty
                | arr ts =>
                    have e1 : jsFuel (JsVal.arr bs) = 1 + jsFuelList bs := by simp [jsFuel]
                    have e2 : jsFuel (JsVal.arr ts) = 1 + jsFuelList ts := by simp [jsFuel]
                    simp only [findJsonDifferencesF, isNullOrUndef, typeofJs, ne_eq,
                      not_true_eq_false, Bool.false_eq_true, if_false, ite_false,
                      if_true, ite_true]
                    have hmod :
                        (buildItems bs).flatMap (fun e =>
                          match lookupField (buildItems ts) e.1 with
                          | some tItem =>
                              findJsonDifferencesF n e.2 tItem (p ++ "[" ++ e.1 ++ "]")
                          | none => []) =
                        (buildItems bs).flatMap (fun e =>
                          match lookupField (buildItems ts) e.1 with
                          | some tItem =>
                              findJsonDifferencesF m' e.2 tItem (p ++ "[" ++ e.1 ++ "]")
                          | none => []) := by
                      apply List.flatMap_congr
                      intro e he
                      cases hl : lookupField (buildItems ts) e.1 with
                      | none => rfl
                      | some tItem =>
                          have b1 : jsFuel e.2 ≤ jsFuelList bs :=
                            jsFuelList_le_of_mem (mem_buildItems he).1
                          have b2 : jsFuel tItem ≤ jsFuelList ts := buildItems_fuel_le hl
                          exact ih e.2 tItem _ m' (by omega) (by omega)
                    rw [hmod]
                | obj gs =>
                    have e1 : jsFuel (JsVal.arr bs) = 1 + jsFuelList bs := by simp [jsFuel]
                    simp only [findJsonDifferencesF, isNullOrUndef, typeofJs, ne_eq,
                      not_true_eq_false, Bool.false_eq_true, if_false, ite_false,
                      if_true, ite_true]
                    apply List.flatMap_congr
                    intro key hk
                    cases hv : jsGetKey (JsVal.arr bs) key with
                    | none => rfl
                    | some v =>
                        cases hw : jsGetKey (JsVal.obj gs) key with
                        | none => rfl
                        | some w =>
                            have b1 := jsGetKey_fuel_lt hv
                            have b2 := jsGetKey_fuel_lt hw
                            exact ih v w _ m' (by omega) (by omega)
            | obj fs =>
                cases t with
                | null => simp [isNullOrUndef] at hN2
                | undef => simp [isNullOrUndef] at hN2
                | bool y => simp [typeofJs] at hty
                | num y => simp [typeofJs] at hty
                | str y => simp [typeofJs] at hty
                | arr ts =>
                    simp only [findJsonDifferencesF, isNullOrUndef, typeofJs, ne_eq,
                      not_true_eq_false, Bool.false_eq_true, if_false, ite_false,
                      if_true, ite_true]
                    apply List.flatMap_congr
                    intro key hk
                    cases hv : jsGetKey (JsVal.obj fs) key with
                    | none => rfl
                    | some v =>
                        cases hw : jsGetKey (JsVal.arr ts) key with
                        | none => rfl
                        | some w =>
                            have b1 := jsGetKey_fuel_lt hv
                            have b2 := jsGetKey_fuel_lt hw
                            exact ih v w _ m' (by omega) (by omega)
                | obj gs =>
                    simp only [findJsonDifferencesF, isNullOrUndef, typeofJs, ne_eq,
                      not_true_eq_false, Bool.false_eq_true, if_false, ite_false,
                      if_true, ite_true]
                    apply List.flatMap_congr
                    intro key hk
                    cases hv : jsGetKey (JsVal.obj fs) key with
                    | none => rfl
                    | some v =>
                        cases hw : jsGetKey (JsVal.obj gs) key with
                        | none => rfl
                        | some w =>
                            have b1 := jsGetKey_fuel_lt hv
                            have b2 := jsGetKey_fuel_lt hw
                            exact ih v w _ m' (by omega) (by omega)
          · simp [findJsonDifferencesF, hN1, hN2, hty]

/-- The wrapper computes the recursion's fixpoint: any fuel at least the
combined size of the two values yields the same result. -/
theorem findJsonDifferences_eq_of_le_fuel (b t : JsVal) (p : String) (m : Nat)
    (h : jsFuel b + jsFuel t ≤ m) :
    findJsonDifferences b t p = findJsonDifferencesF m b t p :=
  findJsonDifferencesF_stable (jsFuel b + jsFuel t) b t p m (Nat.le_refl _) h

end MCPConf
